import Mathlib

/-!
Verification of the lazy hierarchical resource navigator
(`src/frontend/src/components/ResourceGraph.tsx`).

The component's state and its pure mutation logic are shallowly embedded:
the flat node array becomes `List GraphNode`, the `setNodes` updater
closures become pure functions on that list, and the surrounding React
state (`warn`, `erroredNodes`, the zoom transform and the three
snapshot refs) becomes the record `GState`.  Asynchronous fetch
completions are modelled as explicit state-transition functions taking
the backend response as an argument; the single-threaded UI event loop
is modelled by applying transitions in sequence.

External collaborators (the d3 tree-layout and d3-zoom behaviors) are
not part of the repository source; where their behavior decides a
property they are modelled from the specification's description, and
each such definition carries a doc comment saying so.
-/

/-- Hierarchy levels, in the fixed order of `levelOrder` in the source
(`group`, `major`, `course`, `type`); `type` is terminal. -/
inductive Level where
  | group
  | major
  | course
  | type
deriving DecidableEq, Repr

/-- The `GraphNode` record of the source.  The optional flags
`expanded` and `loading` default to `false`, matching the JavaScript
treatment of `undefined` in boolean positions. -/
structure GraphNode where
  id : String
  label : String
  level : Level
  parentId : Option String := none
  count : Nat := 0
  expanded : Bool := false
  loading : Bool := false
  resourceType : Option String := none
deriving DecidableEq, Repr

/-- `MAX_CHILDREN` in the source: per-expansion child cap. -/
def MAX_CHILDREN : Nat := 120

/-- `MAX_NODES_TOTAL` in the source: soft ceiling on total nodes. -/
def MAX_NODES_TOTAL : Nat := 800

/-- `MAX_NODES_HARD` in the source: hard ceiling on total nodes. -/
def MAX_NODES_HARD : Nat := 1200

/-- `IDEAL_MAX_NODES` in the source. -/
def IDEAL_MAX_NODES : Nat := 120

/-- `INITIAL_EXPAND_CAP` in the source. -/
def INITIAL_EXPAND_CAP : Nat := 200

/-- The successor level (`levelOrder[idx + 1]` in `expandNode`);
`none` exactly when the node is terminal (`idx === levelOrder.length - 1`). -/
def nextLevelOf : Level → Option Level
  | .group => some .major
  | .major => some .course
  | .course => some .type
  | .type => none

/-- Worklist transcription of the recursive `collect` closure of
`expandNode` (both the collapse branch and the merge branch build the
same `toRemove` set).  The source recursion
`collect(id) = for n in prev, if n.parentId === id then add n.id; collect(n.id)`
re-scans the full array and diverges on cyclic parent chains; here each
node is consumed at most once and a fuel argument keeps the recursion
structural, so the function is total and kernel-reducible while
computing the same removed-id set on every input where the source
terminates (fuel `2 * pool.length + frontier.length` is always enough,
see `collect_complete`). -/
def collectGoF : Nat → List GraphNode → List String → List String
  | 0, _, _ => []
  | _ + 1, _, [] => []
  | fuel + 1, pool, f :: fs =>
    let kids := pool.filter (fun n => n.parentId = some f)
    let rest := pool.filter (fun n => ¬ (n.parentId = some f))
    kids.map (fun n => n.id) ++ collectGoF fuel rest (fs ++ kids.map (fun n => n.id))

/-- The id set removed when collapsing (or re-merging) the subtree
under `root`: all ids reachable from `root` by following `parentId`
edges downward. -/
def collectDesc (pool : List GraphNode) (root : String) : List String :=
  collectGoF (2 * pool.length + 1) pool [root]

/-- The collapse branch of `expandNode` (the `toggleCollapse && node.expanded`
case): deep-prune the descendant subtree, drop the node itself, and
re-append it with `expanded := false`. -/
def collapseNode (prev : List GraphNode) (node : GraphNode) : List GraphNode :=
  let toRemove := collectDesc prev node.id
  (prev.filter (fun n => ¬ (n.id ∈ toRemove) ∧ ¬ (n.id = node.id))) ++
    [{ node with expanded := false }]

/-- The synchronous prefix of `expandNode node toggleCollapse := true`:
terminal-level guard, collapse branch, `loading` no-op guard, and the
`loading := true` dispatch.  The boolean result records whether an
AggregationClient fetch was issued by this invocation.  (For the
`Level` enumeration, `levelOrder.indexOf` is never `-1`, and the index
is last exactly when the level is `type`.) -/
def expandNodeSync (prev : List GraphNode) (node : GraphNode) :
    List GraphNode × Bool :=
  if node.level = Level.type then (prev, false)
  else if node.expanded then (collapseNode prev node, false)
  else if node.loading then (prev, false)
  else (prev.map (fun n => if n.id = node.id then { n with loading := true } else n), true)

/-- One row of the `resourceApi.summary` response (`data.items`).  The
source receives untyped objects whose field shape varies by level
(`group_id/group_name`, `major_id/major_name`, `course_id/course_name`,
`resource_type/label`); the union of those fields is modelled in one
record. -/
structure SummaryItem where
  group_id : Nat := 0
  group_name : String := ""
  major_id : Nat := 0
  major_name : String := ""
  course_id : Nat := 0
  course_name : String := ""
  resource_type : String := ""
  label : String := ""
  count : Nat := 0
deriving DecidableEq, Repr

/-- The item-to-node translation inside `fetchChildren` (the `list.map`
at the end): derives the deterministic id string per level and sets
`parentId := node.id`.  The catch-all case is the source's fallback
return, which builds a `type`-level node. -/
def mkChild (node : GraphNode) (nextLevel : Level) (item : SummaryItem) : GraphNode :=
  match nextLevel with
  | .major =>
    { id := "major-" ++ toString item.major_id
      label := item.major_name
      level := .major
      parentId := some node.id
      count := item.count }
  | .course =>
    { id := "course-" ++ toString item.course_id
      label := item.course_name
      level := .course
      parentId := some node.id
      count := item.count }
  | _ =>
    { id := "type-" ++ item.resource_type ++ "-" ++ node.id
      label := item.label
      level := .type
      parentId := some node.id
      count := item.count
      resourceType := some item.resource_type }

/-- Truncation notice (`超过 ${MAX_CHILDREN} 个节点，仅展示前 ${MAX_CHILDREN} 个`
with the constant inlined). -/
def truncWarnMsg : String := "超过 120 个节点，仅展示前 120 个"

/-- Soft-ceiling warning of `expandNode`, constant inlined. -/
def softWarnMsg : String := "节点总数超过 800，可能影响性能，请收起部分层级"

/-- Hard-ceiling warning of `expandNode`, constant inlined. -/
def hardWarnMsg : String := "节点总数超过 1200，已停止继续展开，请收起部分节点"

/-- Empty-root warning of `loadRoot`. -/
def emptyWarnMsg : String := "暂无资源"

/-- The pure part of `fetchChildren`: cap the response at
`MAX_CHILDREN`, report the truncation notice (the source routes it
through `safeWarn`, clearing any previous notice when no truncation
occurred), and translate items to child nodes.  The network call itself
is modelled by passing the response `items` as an argument. -/
def fetchChildrenPure (node : GraphNode) (nextLevel : Level) (items : List SummaryItem) :
    List GraphNode × Option String :=
  if items.length > MAX_CHILDREN then
    ((items.take MAX_CHILDREN).map (mkChild node nextLevel), some truncWarnMsg)
  else
    (items.map (mkChild node nextLevel), none)

/-- The last element of `l` whose id is `key` — the value a JavaScript
`Map` holds for `key` after `l.forEach((n) => map.set(n.id, n))`. -/
def lastWith (l : List GraphNode) (key : String) : Option GraphNode :=
  l.reverse.find? (fun n => n.id = key)

/-- First-occurrence-order deduplication worker (`seen` accumulates the
keys already emitted). -/
def firstKeysAux : List String → List String → List String
  | [], _ => []
  | k :: ks, seen => if k ∈ seen then firstKeysAux ks seen else k :: firstKeysAux ks (k :: seen)

/-- Key order of a JavaScript `Map` built by inserting `l` in order:
first occurrence wins for position. -/
def firstKeys (l : List String) : List String := firstKeysAux l []

/-- `Array.from(map.values())` for the `Map` built by
`merged.forEach((n) => map.set(n.id, n))`: keys in first-occurrence
order, each carrying the last value set for it. -/
def dedupById (l : List GraphNode) : List GraphNode :=
  (firstKeys (l.map (fun n => n.id))).filterMap (fun k => lastWith l k)

/-- The successful-fetch `setNodes` updater of `expandNode` below the
hard-ceiling check: deep-prune the node's old subtree, re-insert the
node with `expanded := true, loading := false`, append the fetched
children, deduplicate by id, and force `parentId := node.id` on every
entry whose id is among the fetched children. -/
def mergeChildren (prev : List GraphNode) (node : GraphNode) (children : List GraphNode) :
    List GraphNode :=
  let toRemove := collectDesc prev node.id
  let base := prev.filter (fun n => ¬ (n.id = node.id) ∧ ¬ (n.id ∈ toRemove))
  let merged := base ++ ({ node with expanded := true, loading := false } :: children)
  (dedupById merged).map
    (fun n => if children.any (fun c => c.id = n.id) then { n with parentId := some node.id } else n)

/-- The d3 zoom transform (`k`, `x`, `y`), over exact rationals. -/
structure ZoomT where
  k : ℚ
  x : ℚ
  y : ℚ
deriving DecidableEq, Repr

/-- `d3.zoomIdentity.scale(1)`, the initial transform state. -/
def identityT : ZoomT := { k := 1, x := 0, y := 0 }

/-- The component state relevant to the verified properties: the node array, the
`erroredNodes` id set (as a list with membership semantics), the
banner strings, the viewport transform, and the three snapshot refs
captured for `resetView` (`initialTransformRef`, `initialNodesRef`,
`initialWarnRef`).  Presentation-only state (`selected`, the global
`loading` spinner flag) is omitted. -/
structure GState where
  nodes : List GraphNode
  errored : List String
  warn : Option String
  error : Option String
  nodeError : Option String
  transform : ZoomT
  initialTransform : Option ZoomT
  initialNodes : Option (List GraphNode)
  initialWarn : Option String
deriving DecidableEq, Repr

/-- Successful completion of the fetch dispatched by `expandNode node`:
the body of the `try` block after `await fetchChildren` — the
truncation/soft/hard warnings in their source order, the hard-ceiling
rollback branch, the merge branch, and the unconditional
`erroredNodes.delete(node.id)`.  `node` is the closure value captured
at dispatch time, `items` the backend response. -/
def expandComplete (st : GState) (node : GraphNode) (items : List SummaryItem) : GState :=
  match nextLevelOf node.level with
  | none => st
  | some nl =>
    let children := (fetchChildrenPure node nl items).1
    let fetchWarn := (fetchChildrenPure node nl items).2
    let total := st.nodes.length + children.length
    let warnSoft := if total > MAX_NODES_TOTAL then some softWarnMsg else fetchWarn
    let erroredAfter := st.errored.filter (fun e => ¬ (e = node.id))
    if total > MAX_NODES_HARD then
      { st with
        nodes := st.nodes.map (fun n =>
          if n.id = node.id then { n with loading := false, expanded := false } else n)
        warn := some hardWarnMsg
        errored := erroredAfter }
    else
      { st with
        nodes := mergeChildren st.nodes node children
        warn := warnSoft
        errored := erroredAfter }

/-- Failed completion (the `catch` block of `expandNode`): clear the
node's `loading` flag, add it to `erroredNodes`, and surface the error
banners (the exception-message fallback strings are used). -/
def expandFail (st : GState) (node : GraphNode) : GState :=
  { st with
    nodes := st.nodes.map (fun n => if n.id = node.id then { n with loading := false } else n)
    error := some "加载失败"
    nodeError := some "展开失败，点击重试"
    errored := if node.id ∈ st.errored then st.errored else node.id :: st.errored }

/-- The projection of a node that the `positioned` memo reads: the
hierarchy it hands to the layout is built from `id` and `parentId`
alone. -/
def nodeSkel (n : GraphNode) : String × Option String := (n.id, n.parentId)

/-- Ids of the children of `p` in input order (`childrenMap.get(p)`). -/
def childIdsOf (sk : List (String × Option String)) (p : String) : List String :=
  (sk.filter (fun e => e.2 = some p)).map (fun e => e.1)

/-- Ids of the top-level nodes in input order (`nodes.filter((n) => !n.parentId)`). -/
def rootIdsOf (sk : List (String × Option String)) : List String :=
  (sk.filter (fun e => e.2 = none)).map (fun e => e.1)

/-- Number of leaves of the subtree under `id` (subtree widths computed
bottom-up); fuel keeps the recursion structural. -/
def leafCountF : Nat → List (String × Option String) → String → Nat
  | 0, _, _ => 1
  | fuel + 1, sk, id =>
    let cs := childIdsOf sk id
    if cs.isEmpty then 1
    else (cs.map (fun c => leafCountF fuel sk c)).foldl (· + ·) 0

/-- Modelled from the spec: the `d3.tree()` call inside the
`positioned` memo is external-library code not under `src/`.  Per §4.3
the layout is a deterministic contour-based tree drawing: the
depth-axis coordinate is `depth × fixedSeparation`, breadth-axis slots
are assigned left-to-right preserving sibling input order, subtree
widths (leaf counts) are computed bottom-up, and each node is centered
over its subtree's leaf span.  Output triples are
`(id, depthCoord, breadthCoord)`. -/
def layoutF : Nat → List (String × Option String) → Nat → Nat → String →
    List (String × ℚ × ℚ)
  | 0, _, depth, offset, id => [(id, (depth : ℚ) * 160, ((offset : ℚ) + 1 / 2) * 40)]
  | fuel + 1, sk, depth, offset, id =>
    (id, (depth : ℚ) * 160,
        ((offset : ℚ) + (leafCountF (fuel + 1) sk id : ℚ) / 2) * 40) ::
      ((childIdsOf sk id).foldl
        (fun acc c =>
          (acc.1 + leafCountF fuel sk c, acc.2 ++ layoutF fuel sk (depth + 1) acc.1 c))
        (offset, ([] : List (String × ℚ × ℚ)))).2

/-- Layout of the whole forest: all top-level nodes hang under the
virtual super-root (`treeData = { id: "root", children: roots }`),
which itself is excluded from the output, so the real nodes start at
depth 1 and share one breadth-slot counter. -/
def layoutSkel (sk : List (String × Option String)) : List (String × ℚ × ℚ) :=
  ((rootIdsOf sk).foldl
    (fun acc r => (acc.1 + leafCountF sk.length sk r, acc.2 ++ layoutF sk.length sk 1 acc.1 r))
    (0, ([] : List (String × ℚ × ℚ)))).2

/-- The `positioned` memo: build the forest from `(id, parentId)`
pairs, lay it out, and emit per-node positions with the source's axis
swap and vertical margin (`x := d.y`, `y := d.x + MARGIN_Y`). -/
def positionedOf (nodes : List GraphNode) : List (String × ℚ × ℚ) :=
  (layoutSkel (nodes.map nodeSkel)).map (fun e => (e.1, e.2.1, e.2.2 + 140))

/-- The rendered height `Math.min(780, Math.max(BASE_HEIGHT, 120 + nodes.length * 10))`. -/
def heightOf (nodes : List GraphNode) : ℚ :=
  min 780 (max 640 (120 + 10 * (nodes.length : ℚ)))

/-- Fold-based minimum seeded from the first element (the source seeds
from `Infinity` and folds `Math.min` over all coordinates, which agrees
on nonempty input). -/
def qmin (l : List ℚ) : ℚ := l.foldl min (l.head?.getD 0)

/-- Fold-based maximum seeded from the first element. -/
def qmax (l : List ℚ) : ℚ := l.foldl max (l.head?.getD 0)

/-- The fit-to-bounds transform computed by the auto-fit effect
(bounding box, margin 80, scale capped at 1.1, centering translation);
`VIEWBOX_X = VIEWBOX_Y = 0`. -/
def computeFit (pos : List (String × ℚ × ℚ)) (w h : ℚ) : ZoomT :=
  let xs := pos.map (fun e => e.2.1)
  let ys := pos.map (fun e => e.2.2)
  let minX := qmin xs
  let maxX := qmax xs
  let minY := qmin ys
  let maxY := qmax ys
  let boxWidth := max 1 (maxX - minX)
  let boxHeight := max 1 (maxY - minY)
  let scale := min (min ((w - 80) / boxWidth) ((h - 80) / boxHeight)) (11 / 10)
  let centerX := (minX + maxX) / 2
  let centerY := (minY + maxY) / 2
  { k := scale, x := w / 2 - centerX * scale, y := h / 2 - centerY * scale }

/-- The auto-fit effect (`仅首次加载`): no-op when there are no
positioned nodes or when `initialTransformRef` is already set;
otherwise compute the fit transform, apply it, and record it as the
snapshot. -/
def fitEffect (st : GState) : GState :=
  let pos := positionedOf st.nodes
  if pos.isEmpty then st
  else
    match st.initialTransform with
    | some _ => st
    | none =>
      let t := computeFit pos 820 (heightOf st.nodes)
      { st with transform := t, initialTransform := some t }

/-- Lower bound of the zoom behavior's `scaleExtent([0.4, 2])`. -/
def minScale : ℚ := 4 / 10

/-- Upper bound of the zoom behavior's `scaleExtent([0.4, 2])`. -/
def maxScale : ℚ := 2

/-- Clamp a scale into `[minScale, maxScale]`. -/
def clampScale (k : ℚ) : ℚ := max minScale (min maxScale k)

/-- Modelled from the spec: `zoomBy` composes `transform.scale(k)` with
the d3 zoom behavior carrying `scaleExtent([0.4, 2])`; the enforcement
of the extent lives inside d3-zoom, which is not under `src/`.  Per
§4.4, `zoomBy(factor)` multiplies the current scale by `factor` and
clamps it to the allowed range, leaving the translation unchanged. -/
def zoomByT (t : ZoomT) (k : ℚ) : ZoomT := { t with k := clampScale (t.k * k) }

/-- Gesture-driven pan: translate only. -/
def panT (t : ZoomT) (dx dy : ℚ) : ZoomT := { t with x := t.x + dx, y := t.y + dy }

/-- Modelled from the spec: gesture-driven zoom delivers a new
transform whose scale the zoom behavior keeps inside the scale
extent. -/
def gestureT (t : ZoomT) : ZoomT := { t with k := clampScale t.k }

/-- The `resetView` handler: when the node snapshot exists, restore the
node set from it, clear selection/error state and `erroredNodes`, and
restore the snapshot warning; in all cases animate the transform back
to `initialTransformRef.current || d3.zoomIdentity`. -/
def resetView (st : GState) : GState :=
  let st1 :=
    match st.initialNodes with
    | some ns =>
      { st with
        nodes := ns
        error := none
        nodeError := none
        errored := []
        warn := st.initialWarn }
    | none => st
  { st1 with transform := st.initialTransform.getD identityT }

/-- User-visible events after `loadRoot` has completed: a click on a
node (the synchronous part of `expandNode`), arrival of a successful
or failed fetch completion, gesture pan/zoom, the `zoomBy` buttons, and
a run of the auto-fit effect.  `loadRoot` itself is deliberately not an
event: the properties below quantify over activity after it completes. -/
inductive GOp where
  | click (nid : String)
  | ok (node : GraphNode) (items : List SummaryItem)
  | fail (node : GraphNode)
  | pan (dx dy : ℚ)
  | gesture (t : ZoomT)
  | zoomStep (k : ℚ)
  | fit
deriving DecidableEq, Repr

/-- One event step.  A click resolves the node by id against the
current render (the `nodes.map` in the JSX); `setNodeError(null)` fires
exactly when the click reaches the fetch dispatch. -/
def applyOp (st : GState) : GOp → GState
  | .click nid =>
    match st.nodes.find? (fun n => n.id = nid) with
    | none => st
    | some n =>
      let r := expandNodeSync st.nodes n
      { st with nodes := r.1, nodeError := if r.2 then none else st.nodeError }
  | .ok node items => expandComplete st node items
  | .fail node => expandFail st node
  | .pan dx dy => { st with transform := panT st.transform dx dy }
  | .gesture t => { st with transform := gestureT t }
  | .zoomStep k => { st with transform := zoomByT st.transform k }
  | .fit => fitEffect st

/-- Apply a sequence of events on the single UI thread. -/
def applyOps (st : GState) (ops : List GOp) : GState := ops.foldl applyOp st

/-- Repeated rapid clicks on the node with id `nid` (no fetch
completion delivered in between — the fetch is still outstanding).
Returns the final node array and the number of AggregationClient calls
issued. -/
def clicksGo : Nat → List GraphNode → String → List GraphNode × Nat
  | 0, st, _ => (st, 0)
  | k + 1, st, nid =>
    match st.find? (fun n => n.id = nid) with
    | none => clicksGo k st nid
    | some node =>
      let r := expandNodeSync st node
      let tail := clicksGo k r.1 nid
      (tail.1, (if r.2 then 1 else 0) + tail.2)

/-- Size warning emitted by `loadRoot` when the initial set exceeds
`IDEAL_MAX_NODES`. -/
def idealWarnOf (count : Nat) : String :=
  "当前已加载 " ++ toString count ++ " 个节点，建议收起部分层级（理想不超过 120 个）"

/-- `loadRoot()`: fetch group-level items, then sequentially (one group
fully merged before the next) fetch each group's majors and attach them
eagerly unless doing so would push the prospective total past
`INITIAL_EXPAND_CAP`; capture the node-set and warning snapshots for
`resetView`.  The backend is modelled by the `groups` response and the
per-group `majorsOf` responses. -/
def loadRootModel (groups : List SummaryItem) (majorsOf : GraphNode → List SummaryItem) :
    GState :=
  if groups.isEmpty then
    { nodes := []
      errored := []
      warn := some emptyWarnMsg
      error := none
      nodeError := none
      transform := identityT
      initialTransform := none
      initialNodes := none
      initialWarn := some emptyWarnMsg }
  else
    let step := fun (acc : List GraphNode × Option String) (g : SummaryItem) =>
      let groupNode : GraphNode :=
        { id := "group-" ++ toString g.group_id
          label := g.group_name
          level := .group
          count := g.count
          expanded := false }
      let fetched := fetchChildrenPure groupNode .major (majorsOf groupNode)
      if acc.1.length + 1 + fetched.1.length > INITIAL_EXPAND_CAP then
        (acc.1 ++ [{ groupNode with expanded := false }], fetched.2)
      else
        (acc.1 ++ [{ groupNode with expanded := true }] ++ fetched.1, fetched.2)
    let res := groups.foldl step ([], none)
    let overIdeal := res.1.length > IDEAL_MAX_NODES
    let iw := if overIdeal then some (idealWarnOf res.1.length) else none
    { nodes := res.1
      errored := []
      warn := if overIdeal then iw else res.2
      error := none
      nodeError := none
      transform := identityT
      initialTransform := none
      initialNodes := some res.1
      initialWarn := iw }

/-- Example fixture: an expanded group node. -/
def exGroup : GraphNode := { id := "group-1", label := "示例群", level := .group, expanded := true }

/-- Example fixture: an expanded major node under `exGroup`. -/
def exMajor : GraphNode :=
  { id := "major-1"
    label := "示例专业"
    level := .major
    parentId := some "group-1"
    expanded := true }

/-- Example fixture: a collapsed course node under `exMajor`. -/
def exCourse : GraphNode :=
  { id := "course-1", label := "示例课程", level := .course, parentId := some "major-1" }

/-- Example fixture: a major node whose fetch is outstanding. -/
def exMajorLoading : GraphNode :=
  { id := "major-1"
    label := "示例专业"
    level := .major
    parentId := some "group-1"
    loading := true }

/-- Example fixture: one course-level summary item. -/
def exItemCourse : SummaryItem := { course_id := 7, course_name := "示例课程", count := 3 }

/-- Example fixture: the collapsed major as the click closure captured
it (not yet loading, not expanded). -/
def exMajorIdle : GraphNode :=
  { id := "major-1"
    label := "示例专业"
    level := .major
    parentId := some "group-1" }

/-- Example fixture: the group after its subtree was deep-pruned. -/
def exGroupCollapsed : GraphNode := { exGroup with expanded := false }

/-- Example fixture: the state after collapsing the group while the
major's fetch was still outstanding — the major is gone from the node
set. -/
def exStalePruned : GState :=
  { nodes := [exGroupCollapsed]
    errored := []
    warn := none
    error := none
    nodeError := none
    transform := identityT
    initialTransform := some identityT
    initialNodes := some [exGroupCollapsed]
    initialWarn := none }

/-- Example fixture: a state in which the major's fetch is
outstanding. -/
def exFailState : GState :=
  { nodes := [exGroup, exMajorLoading]
    errored := []
    warn := none
    error := none
    nodeError := none
    transform := identityT
    initialTransform := none
    initialNodes := none
    initialWarn := none }

/-- Example fixture: a state already holding `MAX_NODES_HARD` nodes. -/
def exBigState : GState :=
  { nodes := List.replicate 1200 exCourse
    errored := []
    warn := none
    error := none
    nodeError := none
    transform := identityT
    initialTransform := none
    initialNodes := none
    initialWarn := none }

/-- Example fixture: a post-`loadRoot` state with both snapshots
captured. -/
def exSnapState : GState :=
  { nodes := [exGroup, exMajor, exCourse]
    errored := []
    warn := none
    error := none
    nodeError := none
    transform := identityT
    initialTransform := some identityT
    initialNodes := some [exGroup, exMajor]
    initialWarn := none }

/-- Example fixture: a mixed activity trace (collapse click, pan, zoom
button, auto-fit re-run, failed completion). -/
def exOps : List GOp :=
  [GOp.click "major-1", GOp.pan 10 20, GOp.zoomStep (11 / 10), GOp.fit, GOp.fail exMajorIdle]

/-- Example fixture: node list for the layout-purity witness. -/
def exNodesA : List GraphNode := [exGroup, exMajor, exCourse]

/-- Example fixture: same skeleton as `exNodesA` but different labels,
counts and flags. -/
def exNodesB : List GraphNode :=
  [{ exGroup with label := "另一标签", count := 99 },
   { exMajor with loading := true },
   { exCourse with expanded := true, label := "改名" }]

/-- Specification-level descendant relation: `Coll pool fr x` holds
when some node with id `x` in `pool` is connected to a frontier id in
`fr` by a chain of `parentId` edges.  This is the declarative meaning
of the source's `toRemove` set. -/
inductive Coll (pool : List GraphNode) (fr : List String) : String → Prop
  | base (n : GraphNode) (hn : n ∈ pool) (p : String)
      (hp : n.parentId = some p) (hf : p ∈ fr) : Coll pool fr n.id
  | step (n : GraphNode) (hn : n ∈ pool) (p : String)
      (hp : n.parentId = some p) (hc : Coll pool fr p) : Coll pool fr n.id

lemma coll_empty_frontier (pool : List GraphNode) (x : String) :
    ¬ Coll pool [] x := by
  intro h
  induction h with
  | base n hn p hp hf => exact absurd hf (List.not_mem_nil p)
  | step n hn p hp hc ih => exact ih

lemma coll_mono {pool' pool : List GraphNode} {fr' fr : List String} {x : String}
    (h : Coll pool' fr' x)
    (hpool : ∀ n, n ∈ pool' → n ∈ pool)
    (hfr : ∀ p, p ∈ fr' → p ∈ fr ∨ Coll pool fr p) :
    Coll pool fr x := by
  induction h with
  | base n hn p hp hf =>
    rcases hfr p hf with h1 | h2
    · exact Coll.base n (hpool n hn) p hp h1
    · exact Coll.step n (hpool n hn) p hp h2
  | step n hn p hp hc ih => exact Coll.step n (hpool n hn) p hp ih

lemma length_filter_parent_partition (pool : List GraphNode) (f : String) :
    (pool.filter (fun n => n.parentId = some f)).length +
      (pool.filter (fun n => ¬ (n.parentId = some f))).length = pool.length := by
  simp only [decide_not]
  have h := List.length_eq_length_filter_add
    (l := pool) (fun n => decide (n.parentId = some f))
  omega

/-- Everything the worklist collects is a descendant (any fuel). -/
lemma collect_sound :
    ∀ (fuel : Nat) (pool : List GraphNode) (fr : List String) (x : String),
      x ∈ collectGoF fuel pool fr → Coll pool fr x := by
  intro fuel
  induction fuel with
  | zero => intro pool fr x hx; simp [collectGoF] at hx
  | succ fuel ih =>
    intro pool fr x hx
    cases fr with
    | nil => simp [collectGoF] at hx
    | cons f fs =>
      simp only [collectGoF, List.mem_append, List.mem_map] at hx
      rcases hx with ⟨n, hn, hnx⟩ | hx
      · rw [List.mem_filter] at hn
        have hp : n.parentId = some f := by simpa using hn.2
        exact hnx ▸ Coll.base n hn.1 f hp (List.mem_cons_self f fs)
      · have h2 := ih _ _ _ hx
        refine coll_mono h2 (fun n hn => ?_) (fun p hp => ?_)
        · exact (List.mem_filter.mp hn).1
        · rcases List.mem_append.mp hp with h3 | h3
          · exact Or.inl (List.mem_cons_of_mem f h3)
          · rcases List.mem_map.mp h3 with ⟨m, hm, hmp⟩
            rw [List.mem_filter] at hm
            have hpm : m.parentId = some f := by simpa using hm.2
            exact Or.inr (hmp ▸ Coll.base m hm.1 f hpm (List.mem_cons_self f fs))

/-- With enough fuel the worklist collects every descendant. -/
lemma collect_complete :
    ∀ (fuel : Nat) (pool : List GraphNode) (fr : List String) (x : String),
      2 * pool.length + fr.length ≤ fuel →
      Coll pool fr x → x ∈ collectGoF fuel pool fr := by
  intro fuel
  induction fuel with
  | zero =>
    intro pool fr x hf hx
    cases fr with
    | nil => exact absurd hx (coll_empty_frontier pool x)
    | cons a l =>
      simp only [List.length_cons] at hf
      omega
  | succ fuel ih =>
    intro pool fr x hf hx
    cases fr with
    | nil => exact absurd hx (coll_empty_frontier pool x)
    | cons f fs =>
      have hpart := length_filter_parent_partition pool f
      have hrest : (pool.filter (fun n => ¬ (n.parentId = some f))).length ≤ pool.length :=
        List.length_filter_le _ _
      have hfuel' : 2 * (pool.filter (fun n => ¬ (n.parentId = some f))).length +
          (fs ++ (pool.filter (fun n => n.parentId = some f)).map (fun n => n.id)).length ≤ fuel := by
        simp only [List.length_append, List.length_map]
        simp only [List.length_cons] at hf
        omega
      induction hx with
      | base n hn p hp hfr =>
        by_cases hpf : p = f
        · refine List.mem_append.mpr (Or.inl ?_)
          refine List.mem_map.mpr ⟨n, ?_, rfl⟩
          refine List.mem_filter.mpr ⟨hn, by simp [hp, hpf]⟩
        · have hfs : p ∈ fs := by
            rcases List.mem_cons.mp hfr with h1 | h1
            · exact absurd h1 hpf
            · exact h1
          refine List.mem_append.mpr (Or.inr ?_)
          refine ih _ _ _ hfuel' ?_
          have hnrest : n ∈ pool.filter (fun n => ¬ (n.parentId = some f)) :=
            List.mem_filter.mpr ⟨hn, by simp [hp, hpf]⟩
          exact Coll.base n hnrest p hp (List.mem_append.mpr (Or.inl hfs))
      | step n hn p hp hc ihInner =>
        by_cases hpf : p = f
        · refine List.mem_append.mpr (Or.inl ?_)
          refine List.mem_map.mpr ⟨n, ?_, rfl⟩
          refine List.mem_filter.mpr ⟨hn, by simp [hp, hpf]⟩
        · have hnrest : n ∈ pool.filter (fun n => ¬ (n.parentId = some f)) :=
            List.mem_filter.mpr ⟨hn, by simp [hp, hpf]⟩
          rcases List.mem_append.mp ihInner with hkid | hrec
          · refine List.mem_append.mpr (Or.inr ?_)
            refine ih _ _ _ hfuel' ?_
            exact Coll.base n hnrest p hp (List.mem_append.mpr (Or.inr hkid))
          · have hcoll : Coll (pool.filter (fun n => ¬ (n.parentId = some f)))
                (fs ++ (pool.filter (fun n => n.parentId = some f)).map (fun n => n.id)) p :=
              collect_sound _ _ _ _ hrec
            refine List.mem_append.mpr (Or.inr ?_)
            exact ih _ _ _ hfuel' (Coll.step n hnrest p hp hcoll)

/-- The executable removed-id set coincides with the declarative
descendant relation. -/
lemma collectDesc_iff (pool : List GraphNode) (root : String) (x : String) :
    x ∈ collectDesc pool root ↔ Coll pool [root] x := by
  constructor
  · exact collect_sound _ _ _ _
  · intro h
    exact collect_complete _ _ _ _ (by simp [Nat.add_comm]) h

/-- Membership in the collapse result, characterised against the
declarative descendant relation. -/
lemma collapseNode_mem_iff (prev : List GraphNode) (node : GraphNode) (x : GraphNode) :
    x ∈ collapseNode prev node ↔
      ((x ∈ prev ∧ ¬ (x.id = node.id) ∧ ¬ Coll prev [node.id] x.id) ∨
        x = { node with expanded := false }) := by
  constructor
  · intro hx
    rcases List.mem_append.mp hx with h | h
    · have h2 := List.mem_filter.mp h
      have h3 : ¬ (x.id ∈ collectDesc prev node.id) ∧ ¬ (x.id = node.id) := by
        simpa using h2.2
      exact Or.inl ⟨h2.1, h3.2, fun hc => h3.1 ((collectDesc_iff prev node.id x.id).mpr hc)⟩
    · exact Or.inr (by simpa using h)
  · intro hx
    rcases hx with ⟨hmem2, hne, hnc⟩ | heq
    · refine List.mem_append.mpr (Or.inl (List.mem_filter.mpr ⟨hmem2, ?_⟩))
      have h4 : ¬ (x.id ∈ collectDesc prev node.id) :=
        fun h => hnc (collect_sound _ _ _ _ h)
      simp [h4, hne]
    · exact List.mem_append.mpr (Or.inr (by simp [heq]))

/-- C1: for every node set and every expanded non-terminal node (with
acyclic parent links at that node, as holds for every reachable set),
the collapse path of `toggleExpand` is synchronous (no fetch), yields
exactly the previous set minus the node's complete descendant subtree
with the node itself retained and re-marked `expanded := false`, and
leaves no node whose parent was removed: any surviving node's parent id
that existed before still names a surviving node. -/
theorem collapse_deep_prune_exact (prev : List GraphNode) (node : GraphNode)
    (hmem : node ∈ prev) (hexp : node.expanded = true)
    (hlvl : ¬ node.level = Level.type)
    (hacyc : ¬ Coll prev [node.id] node.id) :
    (expandNodeSync prev node).2 = false ∧
    (expandNodeSync prev node).1 = collapseNode prev node ∧
    (∀ x, x ∈ collapseNode prev node ↔
      ((x ∈ prev ∧ ¬ (x.id = node.id) ∧ ¬ Coll prev [node.id] x.id) ∨
        x = { node with expanded := false })) ∧
    (∀ x ∈ collapseNode prev node, ∀ p, x.parentId = some p →
      (∃ y ∈ prev, y.id = p) → ∃ y ∈ collapseNode prev node, y.id = p) := by
  have hsync : expandNodeSync prev node = (collapseNode prev node, false) := by
    simp [expandNodeSync, hlvl, hexp]
  refine ⟨by rw [hsync], by rw [hsync], collapseNode_mem_iff prev node, ?_⟩
  intro x hx p hpx hex
  by_cases hpn : p = node.id
  · refine ⟨{ node with expanded := false },
      (collapseNode_mem_iff prev node _).mpr (Or.inr rfl), ?_⟩
    simpa using hpn.symm
  · by_cases hcp : Coll prev [node.id] p
    · exfalso
      rcases (collapseNode_mem_iff prev node x).mp hx with ⟨hxp, _, hxnc⟩ | hxeq
      · exact hxnc (Coll.step x hxp p hpx hcp)
      · apply hacyc
        have hnp : node.parentId = some p := by
          rw [hxeq] at hpx
          simpa using hpx
        exact Coll.step node hmem p hnp hcp
    · rcases hex with ⟨y, hy, hyid⟩
      refine ⟨y, (collapseNode_mem_iff prev node y).mpr (Or.inl ⟨hy, ?_, ?_⟩), hyid⟩
      · rw [hyid]; exact hpn
      · rw [hyid]; exact hcp

/-- Witness for C1 on a concrete three-node chain: collapsing the
expanded major prunes its course child and keeps everything else. -/
theorem collapse_deep_prune_exact_witness :
    (expandNodeSync [exGroup, exMajor, exCourse] exMajor).2 = false ∧
    (expandNodeSync [exGroup, exMajor, exCourse] exMajor).1 =
      collapseNode [exGroup, exMajor, exCourse] exMajor ∧
    (∀ x, x ∈ collapseNode [exGroup, exMajor, exCourse] exMajor ↔
      ((x ∈ [exGroup, exMajor, exCourse] ∧ ¬ (x.id = exMajor.id) ∧
        ¬ Coll [exGroup, exMajor, exCourse] [exMajor.id] x.id) ∨
        x = { exMajor with expanded := false })) ∧
    (∀ x ∈ collapseNode [exGroup, exMajor, exCourse] exMajor, ∀ p, x.parentId = some p →
      (∃ y ∈ [exGroup, exMajor, exCourse], y.id = p) →
      ∃ y ∈ collapseNode [exGroup, exMajor, exCourse] exMajor, y.id = p) :=
  collapse_deep_prune_exact [exGroup, exMajor, exCourse] exMajor
    (by decide) (by decide) (by decide)
    (fun h => absurd ((collectDesc_iff [exGroup, exMajor, exCourse] exMajor.id exMajor.id).mpr h)
      (by decide))

/-- Looking up a node by id commutes with the loading-flag update map. -/
lemma find_map_loading (l : List GraphNode) (nid : String) :
    (l.map (fun n => if n.id = nid then { n with loading := true } else n)).find?
      (fun n => n.id = nid) =
    (l.find? (fun n => n.id = nid)).map
      (fun n => if n.id = nid then { n with loading := true } else n) := by
  rw [List.find?_map]
  have hp : ((fun n : GraphNode => decide (n.id = nid)) ∘
      (fun n => if n.id = nid then { n with loading := true } else n)) =
      (fun n : GraphNode => decide (n.id = nid)) := by
    funext n
    by_cases h : n.id = nid <;> simp [h, Function.comp]
  rw [hp]

/-- After a collapse of the clicked node, looking it up by its own id
finds the re-inserted copy. -/
lemma find_collapse_self (st : List GraphNode) (node : GraphNode) :
    (collapseNode st node).find? (fun n => n.id = node.id) =
      some { node with expanded := false } := by
  have hbase : (st.filter (fun n =>
      ¬ (n.id ∈ collectDesc st node.id) ∧ ¬ (n.id = node.id))).find?
      (fun n => n.id = node.id) = none := by
    rw [List.find?_eq_none]
    intro a ha
    have h2 := (List.mem_filter.mp ha).2
    simp only [decide_eq_true_eq] at h2 ⊢
    exact h2.2
  rw [collapseNode, List.find?_append, hbase]
  simp

/-- If the node rendered at `nid` is in the `loading` state, no number
of further rapid clicks issues any fetch. -/
lemma clicksGo_zero_of_loading (k : Nat) :
    ∀ (st : List GraphNode) (nid : String),
      (∀ m, st.find? (fun n => n.id = nid) = some m → m.loading = true) →
      (clicksGo k st nid).2 = 0 := by
  induction k with
  | zero => intro st nid _; rfl
  | succ k ih =>
    intro st nid h
    simp only [clicksGo]
    cases hf : st.find? (fun n => n.id = nid) with
    | none => exact ih st nid h
    | some node =>
      have hload : node.loading = true := h node hf
      have hnid : node.id = nid := by simpa using List.find?_some hf
      by_cases hlv : node.level = Level.type
      · simp only [expandNodeSync, hlv, if_true, eq_self_iff_true]
        simpa using ih st nid h
      · by_cases hex : node.expanded = true
        · simp only [expandNodeSync, hlv, hex, if_false, if_true, ite_true, ite_false]
          have hstep : ∀ m, (collapseNode st node).find? (fun n => n.id = nid) = some m →
              m.loading = true := by
            intro m hm
            rw [← hnid] at hm
            rw [find_collapse_self st node] at hm
            cases hm
            simpa using hload
          simpa [hex, hlv] using ih (collapseNode st node) nid hstep
        · have hex' : node.expanded = false := by
            cases hcase : node.expanded
            · rfl
            · exact absurd hcase hex
          simp only [expandNodeSync, hlv, hex', hload]
          simpa [hlv, hex', hload, expandNodeSync] using ih st nid h

/-- C4: in any sequence of rapid repeated `toggleExpand` clicks on one
node with no fetch completion in between, at most one AggregationClient
call is issued; in particular a click on a collapsed node that is
already `loading` is a strict no-op that issues no fetch. -/
theorem loading_click_single_fetch :
    (∀ (k : Nat) (st : List GraphNode) (nid : String), (clicksGo k st nid).2 ≤ 1) ∧
    (∀ (st : List GraphNode) (node : GraphNode),
      node.loading = true → node.expanded = false →
      expandNodeSync st node = (st, false)) := by
  constructor
  · intro k
    induction k with
    | zero => intro st nid; simp [clicksGo]
    | succ k ih =>
      intro st nid
      simp only [clicksGo]
      cases hf : st.find? (fun n => n.id = nid) with
      | none => exact ih st nid
      | some node =>
        have hnid : node.id = nid := by simpa using List.find?_some hf
        by_cases hlv : node.level = Level.type
        · simpa [expandNodeSync, hlv] using ih st nid
        · by_cases hex : node.expanded = true
          · simpa [expandNodeSync, hlv, hex] using ih (collapseNode st node) nid
          · by_cases hld : node.loading = true
            · simpa [expandNodeSync, hlv, hex, hld] using ih st nid
            · have hrest : (clicksGo k
                  (st.map (fun n => if n.id = node.id then { n with loading := true } else n))
                  nid).2 = 0 := by
                apply clicksGo_zero_of_loading
                intro m hm
                have hf2 : st.find? (fun n => n.id = node.id) = some node := by
                  rw [hnid]; exact hf
                rw [← hnid] at hm
                rw [find_map_loading st node.id, hf2] at hm
                have hm2 : { node with loading := true } = m := by simpa using hm
                rw [← hm2]
              simp [expandNodeSync, hlv, hex, hld, hrest]
  · intro st node hload hexp
    by_cases hlv : node.level = Level.type
    · simp [expandNodeSync, hlv]
    · simp [expandNodeSync, hlv, hexp, hload]

/-- Witness for C4: five rapid clicks on a three-node state issue at
most one fetch, and a click on the loading major fixture is a no-op. -/
theorem loading_click_single_fetch_witness :
    (clicksGo 5 [exGroup, exMajorLoading, exCourse] "major-1").2 ≤ 1 ∧
    expandNodeSync [exGroup, exMajorLoading, exCourse] exMajorLoading =
      ([exGroup, exMajorLoading, exCourse], false) :=
  ⟨loading_click_single_fetch.1 5 [exGroup, exMajorLoading, exCourse] "major-1",
   loading_click_single_fetch.2 [exGroup, exMajorLoading, exCourse] exMajorLoading rfl rfl⟩

/-- C8: when the backend returns more rows than the per-expansion cap,
`fetchChildren` attaches exactly the first `MAX_CHILDREN` of them (in
order) and records the truncation notice. -/
theorem truncation_caps_children (node : GraphNode) (nl : Level) (items : List SummaryItem)
    (hover : items.length > MAX_CHILDREN) :
    (fetchChildrenPure node nl items).1 =
      (items.take MAX_CHILDREN).map (mkChild node nl) ∧
    (fetchChildrenPure node nl items).1.length = MAX_CHILDREN ∧
    (fetchChildrenPure node nl items).2 = some truncWarnMsg := by
  refine ⟨by simp only [fetchChildrenPure, if_pos hover], ?_,
    by simp only [fetchChildrenPure, if_pos hover]⟩
  simp only [fetchChildrenPure, if_pos hover]
  rw [List.length_map, List.length_take]
  exact Nat.min_eq_left (Nat.le_of_lt hover)

/-- Witness for C8: a 150-row response is cut to exactly 120 children
with the truncation notice recorded. -/
theorem truncation_caps_children_witness :
    (fetchChildrenPure exMajorIdle Level.course (List.replicate 150 exItemCourse)).1 =
      ((List.replicate 150 exItemCourse).take MAX_CHILDREN).map (mkChild exMajorIdle Level.course) ∧
    (fetchChildrenPure exMajorIdle Level.course (List.replicate 150 exItemCourse)).1.length =
      MAX_CHILDREN ∧
    (fetchChildrenPure exMajorIdle Level.course (List.replicate 150 exItemCourse)).2 =
      some truncWarnMsg :=
  truncation_caps_children exMajorIdle Level.course (List.replicate 150 exItemCourse)
    (by simp [MAX_CHILDREN])

/-- C2: when the merged total would exceed the hard ceiling, the fetch
result is discarded wholesale — the resulting node list is the pre-fetch
list with only the expanding node's `loading` and `expanded` flags
cleared, the id multiset is untouched (zero children attached), every
other node is kept verbatim, the node is not marked errored, and the
blocking hard-ceiling warning is surfaced. -/
theorem hard_ceiling_discards_fetch (st : GState) (node : GraphNode) (items : List SummaryItem)
    (nl : Level) (hnl : nextLevelOf node.level = some nl)
    (hover : st.nodes.length + (fetchChildrenPure node nl items).1.length > MAX_NODES_HARD) :
    (expandComplete st node items).nodes =
      st.nodes.map (fun n =>
        if n.id = node.id then { n with loading := false, expanded := false } else n) ∧
    (expandComplete st node items).nodes.map (fun n => n.id) =
      st.nodes.map (fun n => n.id) ∧
    ¬ (node.id ∈ (expandComplete st node items).errored) ∧
    (∀ m ∈ st.nodes, ¬ (m.id = node.id) → m ∈ (expandComplete st node items).nodes) ∧
    (expandComplete st node items).warn = some hardWarnMsg := by
  have hbranch : expandComplete st node items =
      { st with
        nodes := st.nodes.map (fun n =>
          if n.id = node.id then { n with loading := false, expanded := false } else n)
        warn := some hardWarnMsg
        errored := st.errored.filter (fun e => ¬ (e = node.id)) } := by
    simp only [expandComplete, hnl]
    rw [if_pos hover]
  rw [hbranch]
  refine ⟨rfl, ?_, ?_, ?_, rfl⟩
  · rw [List.map_map]
    apply List.map_congr_left
    intro a _
    by_cases h : a.id = node.id <;> simp [h, Function.comp]
  · intro hmem2
    have h2 := List.mem_filter.mp hmem2
    simp at h2
  · intro m hm hne
    refine List.mem_map.mpr ⟨m, hm, ?_⟩
    simp [hne]

/-- Witness for C2: a 1200-node state plus a one-row response crosses
the hard ceiling, so the fetch is discarded. -/
theorem hard_ceiling_discards_fetch_witness :
    (expandComplete exBigState exMajorIdle [exItemCourse]).nodes =
      exBigState.nodes.map (fun n =>
        if n.id = exMajorIdle.id then { n with loading := false, expanded := false } else n) ∧
    (expandComplete exBigState exMajorIdle [exItemCourse]).nodes.map (fun n => n.id) =
      exBigState.nodes.map (fun n => n.id) ∧
    ¬ (exMajorIdle.id ∈ (expandComplete exBigState exMajorIdle [exItemCourse]).errored) ∧
    (∀ m ∈ exBigState.nodes, ¬ (m.id = exMajorIdle.id) →
      m ∈ (expandComplete exBigState exMajorIdle [exItemCourse]).nodes) ∧
    (expandComplete exBigState exMajorIdle [exItemCourse]).warn = some hardWarnMsg :=
  hard_ceiling_discards_fetch exBigState exMajorIdle [exItemCourse] Level.course rfl
    (by
      have h1 : exBigState.nodes.length = 1200 := by
        exact List.length_replicate 1200 exCourse
      have h2 : (fetchChildrenPure exMajorIdle Level.course [exItemCourse]).1.length = 1 := by
        simp [fetchChildrenPure, MAX_CHILDREN]
      simp only [h1, h2, MAX_NODES_HARD]
      omega)

/-- No event ever rewrites the node-set snapshot ref (only `loadRoot`
does, and it is not an event). -/
lemma applyOp_initialNodes (st : GState) (op : GOp) :
    (applyOp st op).initialNodes = st.initialNodes := by
  cases op with
  | click nid =>
    simp only [applyOp]
    cases st.nodes.find? (fun n => n.id = nid) <;> rfl
  | ok node items =>
    simp only [applyOp, expandComplete]
    split
    · rfl
    · split <;> rfl
  | fail node => rfl
  | pan dx dy => rfl
  | gesture t => rfl
  | zoomStep k => rfl
  | fit =>
    simp only [applyOp, fitEffect]
    split
    · rfl
    · split <;> rfl

/-- No event ever rewrites the warning snapshot ref. -/
lemma applyOp_initialWarn (st : GState) (op : GOp) :
    (applyOp st op).initialWarn = st.initialWarn := by
  cases op with
  | click nid =>
    simp only [applyOp]
    cases st.nodes.find? (fun n => n.id = nid) <;> rfl
  | ok node items =>
    simp only [applyOp, expandComplete]
    split
    · rfl
    · split <;> rfl
  | fail node => rfl
  | pan dx dy => rfl
  | gesture t => rfl
  | zoomStep k => rfl
  | fit =>
    simp only [applyOp, fitEffect]
    split
    · rfl
    · split <;> rfl

/-- Once the transform snapshot is captured, no event changes it: the
auto-fit effect's guard returns early and nothing else writes the
ref. -/
lemma applyOp_initialTransform (st : GState) (op : GOp) (t0 : ZoomT)
    (h : st.initialTransform = some t0) :
    (applyOp st op).initialTransform = some t0 := by
  cases op with
  | click nid =>
    simp only [applyOp]
    cases st.nodes.find? (fun n => n.id = nid) <;> simpa using h
  | ok node items =>
    simp only [applyOp, expandComplete]
    split
    · exact h
    · split <;> exact h
  | fail node => exact h
  | pan dx dy => exact h
  | gesture t => exact h
  | zoomStep k => exact h
  | fit =>
    simp only [applyOp, fitEffect]
    split
    · exact h
    · rw [h]; exact h

lemma applyOps_initialNodes (ops : List GOp) :
    ∀ st : GState, (applyOps st ops).initialNodes = st.initialNodes := by
  induction ops with
  | nil => intro st; rfl
  | cons op ops ih =>
    intro st
    show (applyOps (applyOp st op) ops).initialNodes = st.initialNodes
    rw [ih (applyOp st op), applyOp_initialNodes]

lemma applyOps_initialTransform (ops : List GOp) :
    ∀ (st : GState) (t0 : ZoomT), st.initialTransform = some t0 →
      (applyOps st ops).initialTransform = some t0 := by
  induction ops with
  | nil => intro st t0 h; exact h
  | cons op ops ih =>
    intro st t0 h
    show (applyOps (applyOp st op) ops).initialTransform = some t0
    exact ih (applyOp st op) t0 (applyOp_initialTransform st op t0 h)

/-- C7: after any sequence of expand/collapse/completion/pan/zoom
activity following a completed `loadRoot` (both snapshots captured),
`resetView` restores the node set and the viewport transform to exactly
the snapshots. -/
theorem reset_restores_snapshot (st : GState) (ns : List GraphNode) (t0 : ZoomT)
    (hns : st.initialNodes = some ns) (ht : st.initialTransform = some t0)
    (ops : List GOp) :
    (resetView (applyOps st ops)).nodes = ns ∧
    (resetView (applyOps st ops)).transform = t0 := by
  have h1 : (applyOps st ops).initialNodes = some ns := by
    rw [applyOps_initialNodes]; exact hns
  have h2 : (applyOps st ops).initialTransform = some t0 :=
    applyOps_initialTransform ops st t0 ht
  constructor
  · simp [resetView, h1]
  · simp [resetView, h1, h2]

/-- Witness for C7: a concrete activity trace on the snapshot fixture
state, rolled back by `resetView`. -/
theorem reset_restores_snapshot_witness :
    (resetView (applyOps exSnapState exOps)).nodes = [exGroup, exMajor] ∧
    (resetView (applyOps exSnapState exOps)).transform = identityT :=
  reset_restores_snapshot exSnapState [exGroup, exMajor] identityT rfl rfl exOps

/-- The auto-fit effect is the identity once the transform snapshot is
set. -/
lemma fitEffect_id_of_some (st : GState) (t0 : ZoomT)
    (h : st.initialTransform = some t0) : fitEffect st = st := by
  simp only [fitEffect]
  split
  · rfl
  · rw [h]

/-- C9: the auto-fit runs at most once.  After the initial fit has
recorded the transform snapshot, re-running the effect after any
further activity (in particular any expand or collapse) is a no-op on
the whole state; and when the snapshot is absent and nodes are
positioned — the situation right after `loadRoot` — the effect applies
the fit-to-bounds transform and records it, so later runs fall under
the first part. -/
theorem no_auto_refit_after_initial_fit :
    (∀ (st : GState) (t0 : ZoomT), st.initialTransform = some t0 →
      ∀ ops : List GOp, fitEffect (applyOps st ops) = applyOps st ops) ∧
    (∀ st : GState, st.initialTransform = none →
      ¬ ((positionedOf st.nodes).isEmpty = true) →
      (fitEffect st).transform = computeFit (positionedOf st.nodes) 820 (heightOf st.nodes) ∧
      (fitEffect st).initialTransform =
        some (computeFit (positionedOf st.nodes) 820 (heightOf st.nodes))) := by
  constructor
  · intro st t0 h ops
    exact fitEffect_id_of_some (applyOps st ops) t0 (applyOps_initialTransform ops st t0 h)
  · intro st h hpos
    simp only [fitEffect]
    rw [if_neg hpos, h]
    exact ⟨rfl, rfl⟩

/-- Witness for C9: on the snapshot fixture, re-running the fit effect
after the activity trace changes nothing; and on the pre-fit state
(snapshot cleared) with positioned nodes, the effect installs the fit
transform once. -/
theorem no_auto_refit_after_initial_fit_witness :
    fitEffect (applyOps exSnapState exOps) = applyOps exSnapState exOps ∧
    ((fitEffect { exSnapState with initialTransform := none }).transform =
      computeFit (positionedOf exSnapState.nodes) 820 (heightOf exSnapState.nodes) ∧
     (fitEffect { exSnapState with initialTransform := none }).initialTransform =
      some (computeFit (positionedOf exSnapState.nodes) 820 (heightOf exSnapState.nodes))) :=
  ⟨no_auto_refit_after_initial_fit.1 exSnapState identityT rfl exOps,
   no_auto_refit_after_initial_fit.2 { exSnapState with initialTransform := none } rfl
     (by decide)⟩

lemma mem_firstKeysAux (l : List String) :
    ∀ (seen : List String) (x : String),
      x ∈ firstKeysAux l seen ↔ x ∈ l ∧ ¬ (x ∈ seen) := by
  induction l with
  | nil => intro seen x; simp [firstKeysAux]
  | cons k ks ih =>
    intro seen x
    by_cases h : k ∈ seen
    · simp only [firstKeysAux]
      rw [if_pos h, ih seen x]
      constructor
      · rintro ⟨h1, h2⟩
        exact ⟨List.mem_cons_of_mem _ h1, h2⟩
      · rintro ⟨h1, h2⟩
        rcases List.mem_cons.mp h1 with rfl | h3
        · exact absurd h h2
        · exact ⟨h3, h2⟩
    · simp only [firstKeysAux]
      rw [if_neg h]
      constructor
      · intro hh
        rcases List.mem_cons.mp hh with rfl | h3
        · exact ⟨List.mem_cons_self _ _, h⟩
        · have h4 := (ih (k :: seen) x).mp h3
          exact ⟨List.mem_cons_of_mem _ h4.1, fun hs => h4.2 (List.mem_cons_of_mem _ hs)⟩
      · rintro ⟨h1, h2⟩
        by_cases hxk : x = k
        · subst hxk
          exact List.mem_cons_self _ _
        · rcases List.mem_cons.mp h1 with h5 | h5
          · exact absurd h5 hxk
          · refine List.mem_cons_of_mem _ ((ih (k :: seen) x).mpr ⟨h5, ?_⟩)
            intro hs
            rcases List.mem_cons.mp hs with h6 | h6
            · exact hxk h6
            · exact h2 h6

lemma mem_firstKeys (l : List String) (x : String) : x ∈ firstKeys l ↔ x ∈ l := by
  rw [firstKeys, mem_firstKeysAux]
  simp

/-- A key present in the list, together with the Map's value for it,
yields a member of the deduplicated list. -/
lemma mem_dedupById (l : List GraphNode) (k : String) (v : GraphNode)
    (hk : k ∈ l.map (fun n => n.id)) (hv : lastWith l k = some v) :
    v ∈ dedupById l := by
  simp only [dedupById]
  refine List.mem_filterMap.mpr ⟨k, ?_, hv⟩
  rw [mem_firstKeys]
  exact hk

lemma lastWith_append (l₁ l₂ : List GraphNode) (k : String) :
    lastWith (l₁ ++ l₂) k = ((lastWith l₂ k).or (lastWith l₁ k)) := by
  simp only [lastWith, List.reverse_append, List.find?_append]

/-- In a list with pairwise distinct ids, searching for a member's id
finds that member. -/
lemma find_self_of_nodup :
    ∀ (l : List GraphNode) (c : GraphNode),
      (l.map (fun n => n.id)).Nodup → c ∈ l →
      l.find? (fun n => n.id = c.id) = some c := by
  intro l
  induction l with
  | nil => intro c _ hc; cases hc
  | cons a l ih =>
    intro c hnd hc
    have hparts : (∀ x ∈ l, ¬ (x.id = a.id)) ∧ (l.map (fun n => n.id)).Nodup := by
      simpa using hnd
    rcases List.mem_cons.mp hc with rfl | h3
    · rw [List.find?_cons_of_pos _ (by simp)]
    · have hne : ¬ (a.id = c.id) := by
        intro he
        exact hparts.1 c h3 he.symm
      rw [List.find?_cons_of_neg _ (by simpa using hne)]
      exact ih c hparts.2 h3

/-- In the merge result, the expanding node reappears exactly once,
`expanded := true, loading := false`, provided no fetched child reuses
its id. -/
lemma mergeChildren_keeps_node (prev : List GraphNode) (node : GraphNode)
    (children : List GraphNode)
    (hnotself : ¬ (node.id ∈ children.map (fun n => n.id))) :
    { node with expanded := true, loading := false } ∈ mergeChildren prev node children := by
  have hfind : (({ node with expanded := true, loading := false } : GraphNode) ::
      children).reverse.find? (fun n => n.id = node.id) =
      some { node with expanded := true, loading := false } := by
    rw [List.reverse_cons, List.find?_append]
    have h1 : children.reverse.find? (fun n => n.id = node.id) = none := by
      rw [List.find?_eq_none]
      intro a ha
      simp only [decide_eq_true_eq]
      intro he
      exact hnotself (he ▸ List.mem_map.mpr ⟨a, List.mem_reverse.mp ha, rfl⟩)
    rw [h1]
    simp [List.find?]
  have hlastm : lastWith
      ((prev.filter (fun n => ¬ (n.id = node.id) ∧ ¬ (n.id ∈ collectDesc prev node.id))) ++
        (({ node with expanded := true, loading := false } : GraphNode) :: children)) node.id =
      some { node with expanded := true, loading := false } := by
    rw [lastWith_append]
    have h2 : lastWith
        (({ node with expanded := true, loading := false } : GraphNode) :: children) node.id =
        some { node with expanded := true, loading := false } := by
      simpa [lastWith] using hfind
    rw [h2]
    rfl
  have hmemk : node.id ∈
      ((prev.filter (fun n => ¬ (n.id = node.id) ∧ ¬ (n.id ∈ collectDesc prev node.id))) ++
        (({ node with expanded := true, loading := false } : GraphNode) :: children)).map
        (fun n => n.id) := by
    refine List.mem_map.mpr ⟨{ node with expanded := true, loading := false }, by simp, rfl⟩
  have hded := mem_dedupById _ _ _ hmemk hlastm
  simp only [mergeChildren]
  refine List.mem_map.mpr ⟨{ node with expanded := true, loading := false }, hded, ?_⟩
  have hany : children.any (fun c =>
      c.id = ({ node with expanded := true, loading := false } : GraphNode).id) = false := by
    rw [List.any_eq_false]
    intro a ha
    simp only [decide_eq_true_eq]
    intro he
    exact hnotself (he ▸ List.mem_map.mpr ⟨a, ha, rfl⟩)
  simp [hany]

/-- In the merge result, every fetched child (pairwise distinct ids)
appears with `parentId` forced to the expanding node. -/
lemma mergeChildren_keeps_children (prev : List GraphNode) (node : GraphNode)
    (children : List GraphNode)
    (hnodup : (children.map (fun n => n.id)).Nodup) :
    ∀ c ∈ children, { c with parentId := some node.id } ∈ mergeChildren prev node children := by
  intro c hc
  have hfindc : children.reverse.find? (fun n => n.id = c.id) = some c := by
    refine find_self_of_nodup children.reverse c ?_ (List.mem_reverse.mpr hc)
    rw [List.map_reverse]
    exact List.nodup_reverse.mpr hnodup
  have hlastc : lastWith
      ((prev.filter (fun n => ¬ (n.id = node.id) ∧ ¬ (n.id ∈ collectDesc prev node.id))) ++
        (({ node with expanded := true, loading := false } : GraphNode) :: children)) c.id =
      some c := by
    rw [lastWith_append]
    have h2 : lastWith
        (({ node with expanded := true, loading := false } : GraphNode) :: children) c.id =
        some c := by
      simp only [lastWith, List.reverse_cons, List.find?_append, hfindc]
      rfl
    rw [h2]
    rfl
  have hmemc : c.id ∈
      ((prev.filter (fun n => ¬ (n.id = node.id) ∧ ¬ (n.id ∈ collectDesc prev node.id))) ++
        (({ node with expanded := true, loading := false } : GraphNode) :: children)).map
        (fun n => n.id) := by
    refine List.mem_map.mpr ⟨c, by simp [hc], rfl⟩
  have hded := mem_dedupById _ _ _ hmemc hlastc
  simp only [mergeChildren]
  refine List.mem_map.mpr ⟨c, hded, ?_⟩
  have hany : children.any (fun x => x.id = c.id) = true :=
    List.any_eq_true.mpr ⟨c, hc, by simp⟩
  simp [hany]

/-- C5: when the expansion fetch for a (collapsed) node fails, the node
ends with `loading := false`, is marked errored, keeps `expanded =
false`, gains no children (id multiset unchanged), and every other node
is untouched; a subsequent successful completion of the same expand
path clears the errored mark, re-inserts the node `expanded := true,
loading := false`, and attaches the fetched children under it. -/
theorem fetch_failure_isolated_retry_recovers
    (st : GState) (node n0 : GraphNode) (items : List SummaryItem) (nl : Level)
    (hnl : nextLevelOf node.level = some nl)
    (hmem : n0 ∈ st.nodes) (hid : n0.id = node.id) (hexp0 : n0.expanded = false)
    (hunder : ¬ (st.nodes.length + (fetchChildrenPure node nl items).1.length > MAX_NODES_HARD))
    (hnodup : ((fetchChildrenPure node nl items).1.map (fun n => n.id)).Nodup)
    (hnotself : ¬ (node.id ∈ (fetchChildrenPure node nl items).1.map (fun n => n.id))) :
    ({ n0 with loading := false } ∈ (expandFail st node).nodes ∧
     ({ n0 with loading := false } : GraphNode).expanded = false ∧
     node.id ∈ (expandFail st node).errored ∧
     (expandFail st node).nodes.map (fun n => n.id) = st.nodes.map (fun n => n.id) ∧
     (∀ m ∈ st.nodes, ¬ (m.id = node.id) → m ∈ (expandFail st node).nodes)) ∧
    (¬ (node.id ∈ (expandComplete (expandFail st node) node items).errored) ∧
     { node with expanded := true, loading := false } ∈
       (expandComplete (expandFail st node) node items).nodes ∧
     (∀ c ∈ (fetchChildrenPure node nl items).1,
       { c with parentId := some node.id } ∈
         (expandComplete (expandFail st node) node items).nodes)) := by
  have hunder2 : ¬ ((expandFail st node).nodes.length +
      (fetchChildrenPure node nl items).1.length > MAX_NODES_HARD) := by
    simpa [expandFail] using hunder
  have hbranch : expandComplete (expandFail st node) node items =
      { expandFail st node with
        nodes := mergeChildren (expandFail st node).nodes node
          (fetchChildrenPure node nl items).1
        warn := if (expandFail st node).nodes.length +
            (fetchChildrenPure node nl items).1.length > MAX_NODES_TOTAL then some softWarnMsg
          else (fetchChildrenPure node nl items).2
        errored := (expandFail st node).errored.filter (fun e => ¬ (e = node.id)) } := by
    simp only [expandComplete, hnl]
    rw [if_neg hunder2]
  refine ⟨⟨?_, by simpa using hexp0, ?_, ?_, ?_⟩, ?_, ?_, ?_⟩
  · simp only [expandFail]
    refine List.mem_map.mpr ⟨n0, hmem, ?_⟩
    rw [if_pos hid]
  · by_cases h : node.id ∈ st.errored <;> simp [expandFail, h]
  · simp only [expandFail]
    rw [List.map_map]
    apply List.map_congr_left
    intro a _
    by_cases h : a.id = node.id <;> simp [h, Function.comp]
  · intro m hm hne
    simp only [expandFail]
    refine List.mem_map.mpr ⟨m, hm, ?_⟩
    rw [if_neg hne]
  · rw [hbranch]
    intro hmem2
    have h2 := List.mem_filter.mp hmem2
    simp at h2
  · rw [hbranch]
    exact mergeChildren_keeps_node _ node _ hnotself
  · rw [hbranch]
    exact mergeChildren_keeps_children _ node _ hnodup

/-- Witness for C5 on the two-node fixture: the major's fetch fails,
then a retried fetch with one course row succeeds. -/
theorem fetch_failure_isolated_retry_recovers_witness :
    ({ exMajorLoading with loading := false } ∈ (expandFail exFailState exMajorIdle).nodes ∧
     ({ exMajorLoading with loading := false } : GraphNode).expanded = false ∧
     exMajorIdle.id ∈ (expandFail exFailState exMajorIdle).errored ∧
     (expandFail exFailState exMajorIdle).nodes.map (fun n => n.id) =
       exFailState.nodes.map (fun n => n.id) ∧
     (∀ m ∈ exFailState.nodes, ¬ (m.id = exMajorIdle.id) →
       m ∈ (expandFail exFailState exMajorIdle).nodes)) ∧
    (¬ (exMajorIdle.id ∈
        (expandComplete (expandFail exFailState exMajorIdle) exMajorIdle [exItemCourse]).errored) ∧
     { exMajorIdle with expanded := true, loading := false } ∈
       (expandComplete (expandFail exFailState exMajorIdle) exMajorIdle [exItemCourse]).nodes ∧
     (∀ c ∈ (fetchChildrenPure exMajorIdle Level.course [exItemCourse]).1,
       { c with parentId := some exMajorIdle.id } ∈
         (expandComplete (expandFail exFailState exMajorIdle) exMajorIdle [exItemCourse]).nodes)) :=
  fetch_failure_isolated_retry_recovers exFailState exMajorIdle exMajorLoading [exItemCourse]
    Level.course rfl (by decide) rfl rfl (by decide) (by decide) (by decide)

/-- C3 is violated by the source: there is no staleness check in the
fetch-completion handler.  Concretely: the major was pruned by its
ancestor's collapse (no node with its id remains), yet when its
outstanding fetch completes, the merge re-inserts the major with
`expanded := true` together with its fetched child.  The claim requires
the completion callback to discard the result instead. -/
theorem stale_fetch_result_resurrects_node :
    (exStalePruned.nodes.all (fun n => ¬ (n.id = "major-1"))) = true ∧
    ((expandComplete exStalePruned exMajorIdle [exItemCourse]).nodes.any
      (fun n => n.id = "major-1" ∧ n.expanded = true ∧ n.loading = false)) = true ∧
    ((expandComplete exStalePruned exMajorIdle [exItemCourse]).nodes.any
      (fun n => n.parentId = some "major-1")) = true := by
  decide

/-- C6: the layout is a pure function of the node set's `(id, parentId)`
skeleton — the derived edges — so two invocations on node lists that
agree on ids and parent links (whatever their labels, counts or flags)
produce bit-identical positions; in particular equal inputs always
produce equal positions, with no hidden state or randomness. -/
theorem layout_pure_skeleton_function (ns1 ns2 : List GraphNode)
    (h : ns1.map nodeSkel = ns2.map nodeSkel) :
    positionedOf ns1 = positionedOf ns2 := by
  simp only [positionedOf]
  rw [h]

/-- Witness for C6: two fixtures differing in labels, counts and flags
but sharing the skeleton get identical positions. -/
theorem layout_pure_skeleton_function_witness :
    positionedOf exNodesA = positionedOf exNodesB :=
  layout_pure_skeleton_function exNodesA exNodesB (by decide)

/-- C10: `zoomBy(k)` multiplies the current scale by `k` and clamps the
product into the allowed scale range `[minScale, maxScale] = [0.4, 2]`;
the resulting scale never leaves that range, and the translation is
untouched. -/
theorem zoomBy_scale_clamped (t : ZoomT) (k : ℚ) :
    (zoomByT t k).k = clampScale (t.k * k) ∧
    minScale ≤ (zoomByT t k).k ∧ (zoomByT t k).k ≤ maxScale ∧
    (zoomByT t k).x = t.x ∧ (zoomByT t k).y = t.y := by
  refine ⟨rfl, le_max_left _ _, ?_, rfl, rfl⟩
  show max minScale (min maxScale (t.k * k)) ≤ maxScale
  apply max_le
  · show minScale ≤ maxScale
    norm_num [minScale, maxScale]
  · exact min_le_left _ _
